import Mathlib

/-
Verification development for the WebBaseline editor add-on
(src/highlight.js): feature classification and span extraction.

The JavaScript source is shallowly embedded as follows.

* JS strings are modelled as `List Char`; the compatibility dataset
  (the external `getStatus` function of `compute-baseline`) is modelled
  as a function from keys to a `LookupResult`, which records whether the
  call returns a status object, returns a null-ish value, or throws.
* The regex scans of `highlightCss` / `highlightHtml` are embedded as
  explicit matchers (`cssMatchHere`, `htmlTagMatchHere`,
  `htmlOccMatchHere`) together with an exec loop (`execFrom`) that, like
  a JS global-regex `exec`, tries each position from the current index
  and resumes after the end of the previous match.  The exec loops carry
  a fuel argument bounded by the text length plus one; since every step
  advances the position by at least one, fuel `cs.length + 1` can never
  be exhausted, so the wrappers fixing that fuel are exact.
* `vscode.Range` values are modelled by the `(offset, length)` pair that
  `pushByStatus` feeds to `positionAt`; for a fixed document text the
  translation offset ↦ position is injective, so nothing is lost.
* The editor object is modelled by its document text, its language id
  and the decoration sets currently applied to it; `setDecorations`
  replaces a decoration set wholesale, which the `Editor` update models.
-/

set_option linter.unusedVariables false

namespace WebBaseline

/-- Possible values of the `baseline` field of a status record returned by
the compatibility dataset: `false`, `"low"`, `"high"`, absent/undefined,
or some other string. -/
inductive Baseline where
  | bfalse
  | low
  | high
  | undef
  | otherStr (s : String)
  deriving DecidableEq, Repr

/-- A support-status record.  Only the `baseline` field is ever read by
the highlighting code, so the other fields of the library's record are
not modelled. -/
structure Status where
  baseline : Baseline
  deriving DecidableEq, Repr

/-- Outcome of a call `getStatus(null, key)` into the external
compatibility library: a status object, a null-ish value, or a thrown
exception. -/
inductive LookupResult where
  | found (s : Status)
  | nullRes
  | err
  deriving DecidableEq, Repr

/-- The compatibility dataset, as the behaviour of `getStatus(null, ·)`
on each key (keys are JS strings, modelled as `List Char`). -/
abbrev Dataset := List Char → LookupResult

/-- A highlight range, identified by its start offset into the document
text and its length (`positionAt(index)` .. `positionAt(index+length)`
in the source). -/
structure Span where
  offset : Nat
  length : Nat
  deriving DecidableEq, Repr

/-- The three tier-bucketed arrays `limited`, `newly`, `widely` that the
scan pushes ranges into. -/
structure Buckets where
  limited : List Span
  newly : List Span
  widely : List Span
  deriving DecidableEq, Repr

/-- `pushByStatus` from src/highlight.js: appends the range to the bucket
selected by the status's `baseline` field.  The if/else-if chain has no
final else, so a status whose baseline is none of `false`, `"low"`,
`"high"` appends to no bucket. -/
def pushByStatus (index length : Nat) (status : Option Status) (b : Buckets) : Buckets :=
  let range : Span := ⟨index, length⟩
  match status with
  | none => { b with limited := b.limited ++ [range] }
  | some s =>
    match s.baseline with
    | .bfalse => { b with limited := b.limited ++ [range] }
    | .low => { b with newly := b.newly ++ [range] }
    | .high => { b with widely := b.widely ++ [range] }
    | .undef => b
    | .otherStr _ => b

/-- `getCssBcdKey` from src/highlight.js. -/
def getCssBcdKey (property : List Char) : List Char :=
  "css.properties.".toList ++ property

/-- `getHtmlBcdKey` from src/highlight.js. -/
def getHtmlBcdKey (element : List Char) : List Char :=
  "html.elements.".toList ++ element

/-- `getBcdStatus` from src/highlight.js: `getStatus` wrapped in
try/catch, returning null when the lookup throws. -/
def getBcdStatus (d : Dataset) (key : List Char) : Option Status :=
  match d key with
  | .found s => some s
  | .nullRes => none
  | .err => none

/-- The character class `[a-zA-Z-]` of the CSS property regex. -/
def isAlphaDash (c : Char) : Bool :=
  ('a' ≤ c && c ≤ 'z') || ('A' ≤ c && c ≤ 'Z') || c = '-'

/-- The regex class `\s` (restricted to its ASCII members, the only ones
relevant to the scans verified here). -/
def isJsSpace (c : Char) : Bool :=
  c = ' ' || c = '\t' || c = '\n' || c = '\r' || c = '\x0b' || c = '\x0c'

/-- Length of the longest prefix of `l` all of whose characters satisfy
`p` (the extent of a greedy `p*` / `p+` at the start of `l`). -/
def prefixRun (p : Char → Bool) : List Char → Nat
  | [] => 0
  | c :: cs => if p c then prefixRun p cs + 1 else 0

/-- Index of the first character of `l` satisfying `p`, if any. -/
def firstIdx (p : Char → Bool) : List Char → Option Nat
  | [] => none
  | c :: cs => if p c then some 0 else (firstIdx p cs).map (fun n => n + 1)

/-- JS `String.prototype.trim`: strip whitespace from both ends. -/
def trim (l : List Char) : List Char :=
  ((l.dropWhile isJsSpace).reverse.dropWhile isJsSpace).reverse

/-- Anchored match of the CSS declaration regex
`([a-zA-Z-]+)\s*:\s*([^;]+);` at the start of `cs`.  Returns the two
capture groups and the length of the whole match.  Greedy semantics with
backtracking collapse as follows: group 1 is the maximal `[a-zA-Z-]` run
(shortening it puts a class character where `\s*:` must match, which
fails); the first `\s*` is the maximal whitespace run before the `:`;
the `;` closing the match is the first `;` after the colon (group 2
cannot cross one); the second `\s*` takes `min(whitespace run, j-1)`
characters so that group 2, which may itself start with whitespace, is
non-empty. -/
def cssMatchHere (cs : List Char) : Option ((List Char × List Char) × Nat) :=
  let n1 := prefixRun isAlphaDash cs
  if n1 = 0 then none
  else
    let g1 := cs.take n1
    let rest1 := cs.drop n1
    let w1 := prefixRun isJsSpace rest1
    match rest1.drop w1 with
    | c :: rest2 =>
      if c = ':' then
        match firstIdx (fun c => c == ';') rest2 with
        | none => none
        | some j =>
          if j = 0 then none
          else
            let wsMax := prefixRun isJsSpace rest2
            let w := min wsMax (j - 1)
            let g2 := (rest2.drop w).take (j - w)
            some ((g1, g2), n1 + w1 + 1 + j + 1)
      else none
    | [] => none

/-- One global-regex exec step, generic in the anchored matcher `m`:
starting from index `i`, try to match at each successive position; on a
match at `idx` of length `len`, return `(idx, captures, idx + len)`
where the last component is the regex's new `lastIndex`.  `fuel` bounds
the number of positions tried; `execFrom` supplies enough fuel to reach
the end of the text, so exhaustion (returning `none`) is unreachable. -/
def execAux {α : Type} (m : List Char → Option (α × Nat)) (cs : List Char) :
    Nat → Nat → Option (Nat × α × Nat)
  | 0, i =>
    match m (cs.drop i) with
    | some (a, len) => some (i, a, i + len)
    | none => none
  | fuel + 1, i =>
    match m (cs.drop i) with
    | some (a, len) => some (i, a, i + len)
    | none => if i < cs.length then execAux m cs fuel (i + 1) else none

/-- Find the first match of matcher `m` at or after index `i`, as a JS
global regex with `lastIndex = i` would. -/
def execFrom {α : Type} (m : List Char → Option (α × Nat)) (cs : List Char) (i : Nat) :
    Option (Nat × α × Nat) :=
  execAux m cs (cs.length - i) i

/-- The CSS declaration scan position function: first match of the
declaration regex at or after `i`. -/
def cssExecFrom (cs : List Char) (i : Nat) : Option (Nat × (List Char × List Char) × Nat) :=
  execFrom cssMatchHere cs i

/-- The `keys` array built for one CSS declaration match: the
property-only key, plus the compound `property.value` key when the
trimmed value is non-empty. -/
def cssKeys (property value : List Char) : List (List Char) :=
  ("css.properties.".toList ++ property) ::
    (if value = [] then []
     else [("css.properties.".toList ++ property) ++ '.' :: value])

/-- The body of the `keys.forEach` callback in `highlightCss`: look the
key up; a thrown lookup is swallowed (no push), otherwise the returned
status (possibly null) is pushed by `pushByStatus`. -/
def cssKeyStep (d : Dataset) (idx plen : Nat) (b : Buckets) (key : List Char) : Buckets :=
  match d key with
  | .found s => pushByStatus idx plen (some s) b
  | .nullRes => pushByStatus idx plen none b
  | .err => b

/-- The `while ((match = regex.exec(text)))` loop of `highlightCss`.
Fuel bounds the number of loop iterations; every match is non-empty so
the position strictly increases, and the wrapper's fuel `cs.length + 1`
is never exhausted. -/
def highlightCssAux (d : Dataset) (cs : List Char) : Nat → Nat → Buckets → Buckets
  | 0, i, b =>
    match cssExecFrom cs i with
    | none => b
    | some (idx, (g1, g2), _) =>
      (cssKeys (trim g1) (trim g2)).foldl (cssKeyStep d idx (trim g1).length) b
  | fuel + 1, i, b =>
    match cssExecFrom cs i with
    | none => b
    | some (idx, (g1, g2), next) =>
      highlightCssAux d cs fuel next
        ((cssKeys (trim g1) (trim g2)).foldl (cssKeyStep d idx (trim g1).length) b)

/-- `highlightCss` from src/highlight.js, acting on the three buckets. -/
def highlightCss (d : Dataset) (cs : List Char) (b : Buckets) : Buckets :=
  highlightCssAux d cs (cs.length + 1) 0 b

/-- The character class `[a-zA-Z]` heading a tag name. -/
def isAsciiLetter (c : Char) : Bool :=
  ('a' ≤ c && c ≤ 'z') || ('A' ≤ c && c ≤ 'Z')

/-- The character class `[a-zA-Z0-9-]` of tag-name continuation
characters. -/
def isTagChar (c : Char) : Bool :=
  isAsciiLetter c || ('0' ≤ c && c ≤ '9') || c = '-'

/-- Anchored match of the tag-detection regex
`<\/?([a-zA-Z][a-zA-Z0-9-]*)` at the start of `l`: `<`, an optional `/`,
then the captured tag name.  Returns the raw capture and the match
length.  If the greedy optional `/` is taken but no tag name follows,
backtracking retries without it, which then fails on the `/` itself, so
the map over `tagNameAt` is exact. -/
def tagNameAt (l : List Char) : Option (List Char) :=
  match l with
  | [] => none
  | c :: rest => if isAsciiLetter c then some (c :: rest.takeWhile isTagChar) else none

def htmlTagMatchHere (l : List Char) : Option (List Char × Nat) :=
  match l with
  | [] => none
  | c0 :: rest =>
    if c0 = '<' then
      match rest with
      | c1 :: r2 =>
        if c1 = '/' then (tagNameAt r2).map (fun raw => (raw, 2 + raw.length))
        else (tagNameAt rest).map (fun raw => (raw, 1 + raw.length))
      | [] => none
    else none

/-- The tag-detection scan position function. -/
def htmlTagExecFrom (cs : List Char) (i : Nat) : Option (Nat × List Char × Nat) :=
  execFrom htmlTagMatchHere cs i

/-- The lookahead class `[\s>/]` of the per-tag regex: the matched tag
name must be followed by whitespace, `>`, or `/`. -/
def lookOk : List Char → Bool
  | [] => false
  | c :: _ => isJsSpace c || c = '>' || c = '/'

/-- Case-insensitive literal match of `tag` against a prefix of the
text, as the `i` flag folds both sides. -/
def ciLeads : List Char → List Char → Bool
  | [], _ => true
  | _ :: _, [] => false
  | t :: ts, c :: cs => (Char.toLower c == Char.toLower t) && ciLeads ts cs

/-- Anchored match of the per-tag regex `<\/?tag(?=[\s>/])` (flags `gi`)
at the start of `l`.  Returns the match length (the lookahead consumes
nothing) and whether `match[0]` starts with `</` (which decides the +2
versus +1 offset adjustment in the loop body).  The greedy optional `/`
is tried first; on failure the matcher retries with the `/` as the first
tag-name character, in which case `match[0]` still starts with `</`. -/
def htmlOccMatchHere (l tag : List Char) : Option (Nat × Bool) :=
  match l with
  | [] => none
  | c0 :: rest =>
    if c0 = '<' then
      match rest with
      | c1 :: r2 =>
        if c1 = '/' then
          if ciLeads tag r2 && lookOk (r2.drop tag.length) then some (2 + tag.length, true)
          else if ciLeads tag rest && lookOk (rest.drop tag.length) then
            some (1 + tag.length, true)
          else none
        else
          if ciLeads tag rest && lookOk (rest.drop tag.length) then
            some (1 + tag.length, false)
          else none
      | [] => none
    else none

/-- The inner `while ((tagMatch = allTags.exec(text)))` loop of
`highlightHtml`: all occurrences of the tag over the whole text, each as
(match index, starts-with-`</`).  Fuel as in `execAux`. -/
def htmlOccsAux (cs tag : List Char) : Nat → Nat → List (Nat × Bool)
  | 0, _ => []
  | fuel + 1, i =>
    match htmlOccMatchHere (cs.drop i) tag with
    | some (len, closing) => (i, closing) :: htmlOccsAux cs tag fuel (i + len)
    | none => if i < cs.length then htmlOccsAux cs tag fuel (i + 1) else []

def htmlOccs (cs tag : List Char) : List (Nat × Bool) :=
  htmlOccsAux cs tag (cs.length + 1) 0

/-- The body of the outer loop of `highlightHtml` for one new tag name:
look up `html.elements.<tagName>`; a thrown lookup is swallowed and a
null status hits `continue`, both yielding no spans; a status object
triggers the per-occurrence rescan of the whole text, pushing one range
per occurrence offset-adjusted past the `<` or `</` delimiter. -/
def htmlTagStep (d : Dataset) (cs tagName : List Char) (b : Buckets) : Buckets :=
  match d (getHtmlBcdKey tagName) with
  | .err => b
  | .nullRes => b
  | .found s =>
    (htmlOccs cs tagName).foldl
      (fun b occ =>
        pushByStatus (occ.1 + (if occ.2 then 2 else 1)) tagName.length (some s) b) b

/-- The outer `while ((match = tagRegex.exec(text)))` loop of
`highlightHtml`, carrying the `checkedTags` set of lower-cased tag names
already processed.  Fuel as in `highlightCssAux`. -/
def highlightHtmlAux (d : Dataset) (cs : List Char) :
    Nat → Nat → List (List Char) → Buckets → Buckets
  | 0, i, checked, b =>
    match htmlTagExecFrom cs i with
    | none => b
    | some (_, raw, _) =>
      if checked.contains (raw.map Char.toLower) then b
      else htmlTagStep d cs (raw.map Char.toLower) b
  | fuel + 1, i, checked, b =>
    match htmlTagExecFrom cs i with
    | none => b
    | some (_, raw, next) =>
      if checked.contains (raw.map Char.toLower) then
        highlightHtmlAux d cs fuel next checked b
      else
        highlightHtmlAux d cs fuel next ((raw.map Char.toLower) :: checked)
          (htmlTagStep d cs (raw.map Char.toLower) b)

/-- `highlightHtml` from src/highlight.js, acting on the three buckets. -/
def highlightHtml (d : Dataset) (cs : List Char) (b : Buckets) : Buckets :=
  highlightHtmlAux d cs (cs.length + 1) 0 [] b

/-- JS `String.prototype.includes`, on char lists: `leadsWith pat l`
tests `pat` as a literal prefix, `hasSeq pat l` as a substring. -/
def leadsWith : List Char → List Char → Bool
  | [], _ => true
  | _ :: _, [] => false
  | a :: as, b :: bs => (a == b) && leadsWith as bs

def hasSeq (pat : List Char) : List Char → Bool
  | [] => leadsWith pat []
  | c :: rest => leadsWith pat (c :: rest) || hasSeq pat rest

/-- The bucket computation of `highlightFeatures`: fresh empty buckets,
a CSS pass when the language id is exactly `css`, `scss` or `less`, then
an HTML pass when the language id contains `"html"`. -/
def scanBuckets (d : Dataset) (text : List Char) (language : List Char) : Buckets :=
  let b : Buckets := ⟨[], [], []⟩
  let b :=
    if ["css".toList, "scss".toList, "less".toList].contains language then
      highlightCss d text b
    else b
  if hasSeq "html".toList language then highlightHtml d text b else b

/-- The editor object, reduced to what `highlightFeatures` reads and
writes: the document text, the language id, and the decoration sets
currently applied (one per tier; `setDecorations` replaces a set). -/
structure Editor where
  text : List Char
  languageId : List Char
  decorations : Buckets
  deriving DecidableEq, Repr

/-- `highlightFeatures` from src/highlight.js on a (non-null) editor:
recompute the buckets from the document text and language id and apply
them, replacing the previous decoration sets. -/
def highlightFeaturesRun (d : Dataset) (e : Editor) : Editor :=
  { e with decorations := scanBuckets d e.text e.languageId }

/-- `highlightFeatures` including the `if (!editor) return;` guard. -/
def highlightFeatures (d : Dataset) : Option Editor → Option Editor
  | none => none
  | some e => some (highlightFeaturesRun d e)

/-- Dataset for the C5 witness: only `css.properties.display` is known,
with baseline high; every other key throws. -/
def dsDisplayHigh : Dataset := fun k =>
  if k = "css.properties.display".toList then .found ⟨.high⟩ else .err

/-- Dataset for the C7 witness: every key resolves with baseline high. -/
def dsAllHigh : Dataset := fun _ => .found ⟨.high⟩

/-- Dataset for the C8 witness: only `css.properties.c` is known, with
baseline low; every other key throws. -/
def dsOnlyC : Dataset := fun k =>
  if k = "css.properties.c".toList then .found ⟨.low⟩ else .err

/-- Dataset for the C6 witness: only `html.elements.dialog` is known,
with baseline low; every other key throws. -/
def dsDialogLow : Dataset := fun k =>
  if k = "html.elements.dialog".toList then .found ⟨.low⟩ else .err

/-- Dataset for C10: only `html.elements.div` is known, with baseline
high; every other key throws. -/
def dsDivHigh : Dataset := fun k =>
  if k = "html.elements.div".toList then .found ⟨.high⟩ else .err

/-- Dataset whose lookups all return a null-ish value. -/
def dsAllNull : Dataset := fun _ => .nullRes

/-- Dataset whose lookups all throw. -/
def dsAllErr : Dataset := fun _ => .err

/- ------------------------------------------------------------------
Character-class facts.
------------------------------------------------------------------ -/

theorem isJsSpace_false_of_alphaDash (c : Char) (h : isAlphaDash c = true) :
    isJsSpace c = false := by
  cases hs : isJsSpace c with
  | false => rfl
  | true =>
    simp only [isJsSpace, Bool.or_eq_true, decide_eq_true_eq] at hs
    rcases hs with ((((h1 | h1) | h1) | h1) | h1) | h1 <;> subst h1 <;>
      exact absurd h (by decide)

theorem beq_semi_false_of_alphaDash (c : Char) (h : isAlphaDash c = true) :
    (c == ';') = false := by
  cases hb : (c == ';') with
  | false => rfl
  | true =>
    have : c = ';' := by simpa using hb
    subst this
    exact absurd h (by decide)

theorem beq_semi_false_of_space (c : Char) (h : isJsSpace c = true) :
    (c == ';') = false := by
  cases hb : (c == ';') with
  | false => rfl
  | true =>
    have : c = ';' := by simpa using hb
    subst this
    exact absurd h (by decide)

/- ------------------------------------------------------------------
prefixRun and firstIdx.
------------------------------------------------------------------ -/

theorem prefixRun_cons_pos (p : Char → Bool) (c : Char) (l : List Char) (h : p c = true) :
    prefixRun p (c :: l) = prefixRun p l + 1 := by
  simp [prefixRun, h]

theorem prefixRun_cons_neg (p : Char → Bool) (c : Char) (l : List Char) (h : p c = false) :
    prefixRun p (c :: l) = 0 := by
  simp [prefixRun, h]

theorem prefixRun_append_all (p : Char → Bool) (xs ys : List Char)
    (h : xs.all p = true) :
    prefixRun p (xs ++ ys) = xs.length + prefixRun p ys := by
  induction xs with
  | nil => simp
  | cons c xs ih =>
    simp only [List.all_cons, Bool.and_eq_true] at h
    simp only [List.cons_append, prefixRun_cons_pos p c _ h.1, ih h.2, List.length_cons]
    omega

theorem firstIdx_spot (p : Char → Bool) (xs : List Char) (y : Char) (ys : List Char)
    (hxs : xs.all (fun c => !p c) = true) (hy : p y = true) :
    firstIdx p (xs ++ y :: ys) = some xs.length := by
  induction xs with
  | nil => simp [firstIdx, hy]
  | cons c xs ih =>
    simp only [List.all_cons, Bool.and_eq_true, Bool.not_eq_true'] at hxs
    simp [firstIdx, hxs.1, ih (by simpa using hxs.2)]

/- ------------------------------------------------------------------
takeWhile / dropWhile / trim.
------------------------------------------------------------------ -/

theorem takeWhile_append_stop (p : Char → Bool) (xs : List Char) (y : Char) (ys : List Char)
    (hxs : xs.all p = true) (hy : p y = false) :
    (xs ++ y :: ys).takeWhile p = xs := by
  induction xs with
  | nil => simp [List.takeWhile_cons, hy]
  | cons c xs ih =>
    simp only [List.all_cons, Bool.and_eq_true] at hxs
    simp [List.takeWhile_cons, hxs.1, ih hxs.2]

theorem dropWhile_eq_self_of_all (p : Char → Bool) (l : List Char)
    (h : l.all (fun c => !p c) = true) : l.dropWhile p = l := by
  cases l with
  | nil => rfl
  | cons c cs =>
    simp only [List.all_cons, Bool.and_eq_true, Bool.not_eq_true'] at h
    simp [List.dropWhile_cons, h.1]

theorem trim_eq_self (l : List Char) (h : l.all (fun c => !isJsSpace c) = true) :
    trim l = l := by
  have h1 : l.dropWhile isJsSpace = l := dropWhile_eq_self_of_all _ _ h
  have h2 : l.reverse.all (fun c => !isJsSpace c) = true := by
    rw [List.all_eq_true] at h ⊢
    intro x hx
    exact h x (List.mem_reverse.mp hx)
  unfold trim
  rw [h1, dropWhile_eq_self_of_all _ _ h2, List.reverse_reverse]

theorem trim_of_alphaDash (l : List Char) (h : l.all isAlphaDash = true) :
    trim l = l := by
  apply trim_eq_self
  rw [List.all_eq_true] at h ⊢
  intro x hx
  simpa using isJsSpace_false_of_alphaDash x (h x hx)

/- ------------------------------------------------------------------
Generic exec-loop lemmas.
------------------------------------------------------------------ -/

theorem exec_hit {α : Type} (m : List Char → Option (α × Nat)) (cs : List Char) (i : Nat)
    (a : α) (len : Nat) (h : m (cs.drop i) = some (a, len)) :
    execFrom m cs i = some (i, a, i + len) := by
  unfold execFrom
  cases hf : cs.length - i with
  | zero => simp [execAux, h]
  | succ k => simp [execAux, h]

theorem exec_skip {α : Type} (m : List Char → Option (α × Nat)) (cs : List Char) (i : Nat)
    (hm : m (cs.drop i) = none) (hi : i < cs.length) :
    execFrom m cs i = execFrom m cs (i + 1) := by
  have hf : cs.length - i = (cs.length - (i + 1)) + 1 := by omega
  unfold execFrom
  rw [hf]
  simp [execAux, hm, hi]

theorem exec_skip_seg {α : Type} (m : List Char → Option (α × Nat)) (cs : List Char)
    (seg : List Char) :
    ∀ (tail : List Char) (i : Nat), cs.drop i = seg ++ tail →
      (∀ c ∈ seg, ∀ l, m (c :: l) = none) →
      execFrom m cs i = execFrom m cs (i + seg.length) := by
  induction seg with
  | nil => intro tail i _ _; simp
  | cons c seg ih =>
    intro tail i hdrop hfail
    have hm : m (cs.drop i) = none := by rw [hdrop]; exact hfail c (by simp) _
    have hi : i < cs.length := by
      by_contra hle
      have hnil : cs.drop i = [] := List.drop_eq_nil_of_le (by omega)
      rw [hnil] at hdrop
      exact absurd hdrop.symm (by simp)
    have hdrop' : cs.drop (i + 1) = seg ++ tail := by
      rw [← List.drop_drop, hdrop]
      simp
    have hrest := ih tail (i + 1) hdrop' (fun x hx l => hfail x (by simp [hx]) l)
    rw [exec_skip m cs i hm hi, hrest]
    congr 1
    simp
    omega

theorem exec_none_end {α : Type} (m : List Char → Option (α × Nat)) (cs : List Char) (i : Nat)
    (hnil : m [] = none) (hi : cs.length ≤ i) : execFrom m cs i = none := by
  have hd : cs.drop i = [] := List.drop_eq_nil_of_le hi
  have hf : cs.length - i = 0 := by omega
  unfold execFrom
  rw [hf]
  simp [execAux, hd, hnil]

theorem exec_none_of_tail {α : Type} (m : List Char → Option (α × Nat)) (cs : List Char)
    (i : Nat) (hnil : m [] = none)
    (hfail : ∀ c ∈ cs.drop i, ∀ l, m (c :: l) = none) :
    execFrom m cs i = none := by
  rcases le_or_lt cs.length i with hle | hlt
  · exact exec_none_end m cs i hnil hle
  · have hs := exec_skip_seg m cs (cs.drop i) [] i (by simp) hfail
    rw [hs, List.length_drop]
    exact exec_none_end m cs _ hnil (by omega)

/- ------------------------------------------------------------------
CSS matcher lemmas.
------------------------------------------------------------------ -/

theorem cssMatchHere_nil : cssMatchHere [] = none := rfl

theorem cssMatchHere_cons_neg (c : Char) (l : List Char) (h : isAlphaDash c = false) :
    cssMatchHere (c :: l) = none := by
  simp [cssMatchHere, prefixRun_cons_neg _ _ _ h]

theorem cssMatchHere_decl (prop ws value rest : List Char)
    (hp : prop ≠ []) (hpc : prop.all isAlphaDash = true)
    (hws : ws.all isJsSpace = true)
    (hv : value ≠ []) (hvc : value.all (fun c => !isJsSpace c && !(c == ';')) = true) :
    cssMatchHere (prop ++ ':' :: (ws ++ (value ++ ';' :: rest))) =
      some ((prop, value), prop.length + ws.length + value.length + 2) := by
  obtain ⟨v0, vt, rfl⟩ := List.exists_cons_of_ne_nil hv
  have hvhead : (!isJsSpace v0 && !(v0 == ';')) = true ∧
      vt.all (fun c => !isJsSpace c && !(c == ';')) = true := by
    simpa [List.all_cons] using hvc
  have hv0s : isJsSpace v0 = false := by
    have := hvhead.1
    simp only [Bool.and_eq_true, Bool.not_eq_true'] at this
    exact this.1
  have hn1 : prefixRun isAlphaDash (prop ++ ':' :: (ws ++ (v0 :: vt ++ ';' :: rest))) =
      prop.length := by
    rw [prefixRun_append_all _ _ _ hpc, prefixRun_cons_neg _ _ _ (by decide)]
    simp
  have hlen0 : prop.length ≠ 0 := fun h => hp (List.length_eq_zero.mp h)
  have hsemi_all : (ws ++ v0 :: vt).all (fun c => !(c == ';')) = true := by
    rw [List.all_eq_true]
    intro x hx
    rcases List.mem_append.mp hx with hxw | hxv
    · have hxs : isJsSpace x = true := by
        have := hws; rw [List.all_eq_true] at this; exact this x hxw
      simpa using beq_semi_false_of_space x hxs
    · have := hvc
      rw [List.all_eq_true] at this
      have hx2 := this x hxv
      simp only [Bool.and_eq_true, Bool.not_eq_true'] at hx2
      simpa using hx2.2
  have hfi : firstIdx (fun c => c == ';') (ws ++ (v0 :: vt ++ ';' :: rest)) =
      some (ws.length + (v0 :: vt).length) := by
    have h1 := firstIdx_spot (fun c => c == ';') (ws ++ v0 :: vt) ';' rest hsemi_all (by simp)
    rw [List.append_assoc] at h1
    simpa [List.length_append] using h1
  have hwsMax : prefixRun isJsSpace (ws ++ (v0 :: vt ++ ';' :: rest)) = ws.length := by
    rw [prefixRun_append_all _ _ _ hws]
    simp [prefixRun_cons_neg _ _ _ hv0s]
  simp only [cssMatchHere]
  rw [hn1, if_neg hlen0, List.take_left, List.drop_left,
    prefixRun_cons_neg isJsSpace ':' _ (by decide), List.drop_zero]
  simp only [hfi]
  rw [if_pos trivial]
  rw [if_neg (show ¬(ws.length + (v0 :: vt).length = 0) by
    simp only [List.length_cons]; omega)]
  rw [hwsMax]
  have hmin : min ws.length (ws.length + (v0 :: vt).length - 1) = ws.length := by
    simp only [List.length_cons]
    omega
  rw [hmin]
  rw [List.drop_left]
  have hsub : ws.length + (v0 :: vt).length - ws.length = (v0 :: vt).length := by omega
  rw [hsub, List.take_left]
  simp only [Option.some.injEq, Prod.mk.injEq, List.length_cons, true_and, and_true]
  omega

theorem cssMatchHere_wsval (prop rest : List Char)
    (hp : prop ≠ []) (hpc : prop.all isAlphaDash = true) :
    cssMatchHere (prop ++ ':' :: ' ' :: ';' :: rest) =
      some ((prop, [' ']), prop.length + 3) := by
  have hn1 : prefixRun isAlphaDash (prop ++ ':' :: ' ' :: ';' :: rest) = prop.length := by
    rw [prefixRun_append_all _ _ _ hpc, prefixRun_cons_neg _ _ _ (by decide)]
    simp
  have hlen0 : prop.length ≠ 0 := fun h => hp (List.length_eq_zero.mp h)
  have hfi : firstIdx (fun c => c == ';') (' ' :: ';' :: rest) = some 1 := by
    simp [firstIdx]
  simp only [cssMatchHere]
  rw [hn1, if_neg hlen0, List.take_left, List.drop_left,
    prefixRun_cons_neg isJsSpace ':' _ (by decide), List.drop_zero]
  simp only [hfi]
  rw [if_pos trivial]
  rw [if_neg (by omega)]
  rw [prefixRun_cons_pos isJsSpace ' ' _ (by decide),
    prefixRun_cons_neg isJsSpace ';' _ (by decide)]
  simp only [Option.some.injEq, Prod.mk.injEq]
  exact ⟨⟨trivial, by simp [Nat.min_def]⟩, trivial⟩

/- ------------------------------------------------------------------
CSS loop lemmas and declaration-scenario helpers.
------------------------------------------------------------------ -/

theorem cssLoop_end (d : Dataset) (cs : List Char) (fuel i : Nat) (b : Buckets)
    (h : cssExecFrom cs i = none) : highlightCssAux d cs fuel i b = b := by
  cases fuel <;> simp [highlightCssAux, h]

theorem cssLoop_step (d : Dataset) (cs : List Char) (f i : Nat) (b : Buckets)
    (idx next : Nat) (g1 g2 : List Char)
    (h : cssExecFrom cs i = some (idx, (g1, g2), next)) :
    highlightCssAux d cs (f + 1) i b =
      highlightCssAux d cs f next
        ((cssKeys (trim g1) (trim g2)).foldl (cssKeyStep d idx (trim g1).length) b) := by
  simp [highlightCssAux, h]

theorem css_end_tail (d : Dataset) (cs : List Char) (fuel i : Nat) (b : Buckets)
    (htail : (cs.drop i).all (fun c => !isAlphaDash c) = true) :
    highlightCssAux d cs fuel i b = b := by
  apply cssLoop_end
  apply exec_none_of_tail _ _ _ cssMatchHere_nil
  intro c hc l
  apply cssMatchHere_cons_neg
  rw [List.all_eq_true] at htail
  simpa using htail c hc

theorem css_exec_decl (d : Dataset) (cs : List Char) (i : Nat)
    (mid prop ws value tail : List Char)
    (hdrop : cs.drop i = mid ++ (prop ++ ':' :: (ws ++ (value ++ ';' :: tail))))
    (hmid : mid.all (fun c => !isAlphaDash c) = true)
    (hp : prop ≠ []) (hpc : prop.all isAlphaDash = true)
    (hws : ws.all isJsSpace = true)
    (hv : value ≠ []) (hvc : value.all (fun c => !isJsSpace c && !(c == ';')) = true) :
    cssExecFrom cs i = some (i + mid.length, (prop, value),
      i + mid.length + (prop.length + ws.length + value.length + 2)) := by
  have hskip := exec_skip_seg cssMatchHere cs mid _ i hdrop
    (fun c hc l => cssMatchHere_cons_neg c l (by
      rw [List.all_eq_true] at hmid
      simpa using hmid c hc))
  have hdrop2 : cs.drop (i + mid.length) = prop ++ ':' :: (ws ++ (value ++ ';' :: tail)) := by
    rw [← List.drop_drop, hdrop, List.drop_left]
  have hhit := exec_hit cssMatchHere cs (i + mid.length) (prop, value)
    (prop.length + ws.length + value.length + 2)
    (by rw [hdrop2]; exact cssMatchHere_decl prop ws value tail hp hpc hws hv hvc)
  unfold cssExecFrom at *
  rw [hskip, hhit]

theorem css_step_decl (d : Dataset) (cs : List Char) (f i : Nat) (b : Buckets)
    (mid prop ws value tail : List Char)
    (hdrop : cs.drop i = mid ++ (prop ++ ':' :: (ws ++ (value ++ ';' :: tail))))
    (hmid : mid.all (fun c => !isAlphaDash c) = true)
    (hp : prop ≠ []) (hpc : prop.all isAlphaDash = true)
    (hws : ws.all isJsSpace = true)
    (hv : value ≠ []) (hvc : value.all (fun c => !isJsSpace c && !(c == ';')) = true) :
    highlightCssAux d cs (f + 1) i b =
      highlightCssAux d cs f (i + mid.length + (prop.length + ws.length + value.length + 2))
        ((cssKeys prop value).foldl (cssKeyStep d (i + mid.length) prop.length) b) := by
  have hexec := css_exec_decl d cs i mid prop ws value tail hdrop hmid hp hpc hws hv hvc
  rw [cssLoop_step d cs f i b _ _ _ _ hexec]
  have hv' : value.all (fun c => !isJsSpace c) = true := by
    rw [List.all_eq_true] at hvc ⊢
    intro x hx
    have := hvc x hx
    simp only [Bool.and_eq_true] at this
    exact this.1
  rw [trim_of_alphaDash prop hpc, trim_eq_self value hv']

theorem css_scan_decl (d : Dataset) (pre prop ws value rest : List Char) (b : Buckets)
    (hpre : pre.all (fun c => !isAlphaDash c) = true)
    (hp : prop ≠ []) (hpc : prop.all isAlphaDash = true)
    (hws : ws.all isJsSpace = true)
    (hv : value ≠ []) (hvc : value.all (fun c => !isJsSpace c && !(c == ';')) = true)
    (hrest : rest.all (fun c => !isAlphaDash c) = true) :
    highlightCss d (pre ++ (prop ++ ':' :: (ws ++ (value ++ ';' :: rest)))) b =
      (cssKeys prop value).foldl (cssKeyStep d pre.length prop.length) b := by
  unfold highlightCss
  rw [css_step_decl d _ _ 0 b pre prop ws value rest (by simp) hpre hp hpc hws hv hvc]
  have hsplit : pre ++ (prop ++ ':' :: (ws ++ (value ++ ';' :: rest))) =
      (pre ++ prop ++ [':'] ++ ws ++ value ++ [';']) ++ rest := by simp
  have hdropr : (pre ++ (prop ++ ':' :: (ws ++ (value ++ ';' :: rest)))).drop
      (0 + pre.length + (prop.length + ws.length + value.length + 2)) = rest := by
    rw [hsplit, List.drop_left']
    simp only [List.length_append, List.length_cons, List.length_nil]
    omega
  rw [css_end_tail d _ _ _ _ (by rw [hdropr]; exact hrest)]
  simp

theorem css_scan_wsval (d : Dataset) (pre prop rest : List Char) (b : Buckets)
    (hpre : pre.all (fun c => !isAlphaDash c) = true)
    (hp : prop ≠ []) (hpc : prop.all isAlphaDash = true)
    (hrest : rest.all (fun c => !isAlphaDash c) = true) :
    highlightCss d (pre ++ (prop ++ ':' :: ' ' :: ';' :: rest)) b =
      cssKeyStep d pre.length prop.length b ("css.properties.".toList ++ prop) := by
  unfold highlightCss
  have hskip := exec_skip_seg cssMatchHere (pre ++ (prop ++ ':' :: ' ' :: ';' :: rest)) pre
    (prop ++ ':' :: ' ' :: ';' :: rest) 0 (by simp)
    (fun c hc l => cssMatchHere_cons_neg c l (by
      rw [List.all_eq_true] at hpre
      simpa using hpre c hc))
  have hdrop2 : (pre ++ (prop ++ ':' :: ' ' :: ';' :: rest)).drop (0 + pre.length) =
      prop ++ ':' :: ' ' :: ';' :: rest := by
    simp
  have hhit := exec_hit cssMatchHere (pre ++ (prop ++ ':' :: ' ' :: ';' :: rest))
    (0 + pre.length) (prop, [' ']) (prop.length + 3)
    (by rw [hdrop2]; exact cssMatchHere_wsval prop rest hp hpc)
  have hexec : cssExecFrom (pre ++ (prop ++ ':' :: ' ' :: ';' :: rest)) 0 =
      some (0 + pre.length, (prop, [' ']), 0 + pre.length + (prop.length + 3)) := by
    unfold cssExecFrom
    rw [hskip, hhit]
  rw [cssLoop_step d _ _ 0 b _ _ _ _ hexec]
  have htr : trim [' '] = ([] : List Char) := by decide
  rw [trim_of_alphaDash prop hpc, htr]
  have hsplit : pre ++ (prop ++ ':' :: ' ' :: ';' :: rest) =
      (pre ++ prop ++ [':'] ++ [' '] ++ [';']) ++ rest := by simp
  have hdropr : (pre ++ (prop ++ ':' :: ' ' :: ';' :: rest)).drop
      (0 + pre.length + (prop.length + 3)) = rest := by
    rw [hsplit, List.drop_left']
    simp only [List.length_append, List.length_cons, List.length_nil]
    omega
  rw [css_end_tail d _ _ _ _ (by rw [hdropr]; exact hrest)]
  simp [cssKeys]

/- ------------------------------------------------------------------
Behaviour under an all-throwing dataset (unknown features).
------------------------------------------------------------------ -/

theorem foldl_fix {α β : Type} (f : β → α → β) (b : β) (l : List α)
    (h : ∀ b a, f b a = b) : l.foldl f b = b := by
  induction l generalizing b with
  | nil => rfl
  | cons a l ih => rw [List.foldl_cons, h, ih]

theorem cssKeyStep_err (d : Dataset) (idx plen : Nat) (b : Buckets) (k : List Char)
    (h : d k = LookupResult.err) : cssKeyStep d idx plen b k = b := by
  simp [cssKeyStep, h]

theorem htmlTagStep_err (d : Dataset) (cs tag : List Char) (b : Buckets)
    (h : d (getHtmlBcdKey tag) = LookupResult.err) : htmlTagStep d cs tag b = b := by
  simp [htmlTagStep, h]

theorem cssKeyStep_found (d : Dataset) (idx plen : Nat) (b : Buckets) (k : List Char)
    (s : Status) (h : d k = LookupResult.found s) :
    cssKeyStep d idx plen b k = pushByStatus idx plen (some s) b := by
  simp [cssKeyStep, h]

theorem cssKeyStep_null (d : Dataset) (idx plen : Nat) (b : Buckets) (k : List Char)
    (h : d k = LookupResult.nullRes) :
    cssKeyStep d idx plen b k = pushByStatus idx plen none b := by
  simp [cssKeyStep, h]

theorem highlightCssAux_allErr (d : Dataset) (hd : ∀ k, d k = LookupResult.err)
    (cs : List Char) : ∀ fuel i b, highlightCssAux d cs fuel i b = b := by
  intro fuel
  induction fuel with
  | zero =>
    intro i b
    cases h : cssExecFrom cs i with
    | none => simp [highlightCssAux, h]
    | some r =>
      obtain ⟨idx, ⟨g1, g2⟩, next⟩ := r
      simp only [highlightCssAux, h]
      exact foldl_fix _ _ _ (fun b k => cssKeyStep_err d _ _ b k (hd k))
  | succ f ih =>
    intro i b
    cases h : cssExecFrom cs i with
    | none => simp [highlightCssAux, h]
    | some r =>
      obtain ⟨idx, ⟨g1, g2⟩, next⟩ := r
      simp only [highlightCssAux, h]
      rw [foldl_fix _ _ _ (fun b k => cssKeyStep_err d _ _ b k (hd k))]
      exact ih next b

theorem highlightCss_allErr (d : Dataset) (hd : ∀ k, d k = LookupResult.err)
    (cs : List Char) (b : Buckets) : highlightCss d cs b = b :=
  highlightCssAux_allErr d hd cs _ 0 b

theorem highlightHtmlAux_allErr (d : Dataset) (hd : ∀ k, d k = LookupResult.err)
    (cs : List Char) : ∀ fuel i checked b, highlightHtmlAux d cs fuel i checked b = b := by
  intro fuel
  induction fuel with
  | zero =>
    intro i checked b
    cases h : htmlTagExecFrom cs i with
    | none => simp [highlightHtmlAux, h]
    | some r =>
      obtain ⟨idx, raw, next⟩ := r
      simp only [highlightHtmlAux, h]
      rw [htmlTagStep_err d cs _ b (hd _)]
      simp
  | succ f ih =>
    intro i checked b
    cases h : htmlTagExecFrom cs i with
    | none => simp [highlightHtmlAux, h]
    | some r =>
      obtain ⟨idx, raw, next⟩ := r
      simp only [highlightHtmlAux, h]
      rw [htmlTagStep_err d cs _ b (hd _)]
      simp [ih]

theorem highlightHtml_allErr (d : Dataset) (hd : ∀ k, d k = LookupResult.err)
    (cs : List Char) (b : Buckets) : highlightHtml d cs b = b :=
  highlightHtmlAux_allErr d hd cs _ 0 [] b

theorem scanBuckets_allErr (d : Dataset) (hd : ∀ k, d k = LookupResult.err)
    (text lang : List Char) : scanBuckets d text lang = ⟨[], [], []⟩ := by
  have h1 : ∀ b, highlightCss d text b = b := highlightCss_allErr d hd text
  have h2 : ∀ b, highlightHtml d text b = b := highlightHtml_allErr d hd text
  simp only [scanBuckets, h1, h2, ite_self]

/- ------------------------------------------------------------------
HTML matcher and loop lemmas.
------------------------------------------------------------------ -/

theorem htmlTagMatchHere_nil : htmlTagMatchHere [] = none := rfl

theorem htmlTagMatchHere_cons_neg (c : Char) (l : List Char) (h : ¬ c = '<') :
    htmlTagMatchHere (c :: l) = none := by
  simp [htmlTagMatchHere, h]

theorem tagNameAt_spot (t0 : Char) (tt : List Char) (y : Char) (ys : List Char)
    (h0 : isAsciiLetter t0 = true) (htt : tt.all isTagChar = true)
    (hy : isTagChar y = false) :
    tagNameAt (t0 :: (tt ++ y :: ys)) = some (t0 :: tt) := by
  simp [tagNameAt, h0, takeWhile_append_stop isTagChar tt y ys htt hy]

theorem htmlTagMatchHere_open (t0 : Char) (tt : List Char) (y : Char) (ys : List Char)
    (h0 : isAsciiLetter t0 = true) (htt : tt.all isTagChar = true)
    (hy : isTagChar y = false) :
    htmlTagMatchHere ('<' :: (t0 :: (tt ++ y :: ys))) =
      some (t0 :: tt, 1 + (t0 :: tt).length) := by
  have ht0 : ¬ t0 = '/' := by
    intro h
    subst h
    exact absurd h0 (by decide)
  simp [htmlTagMatchHere, ht0, tagNameAt_spot t0 tt y ys h0 htt hy]

theorem htmlTagMatchHere_close (t0 : Char) (tt : List Char) (y : Char) (ys : List Char)
    (h0 : isAsciiLetter t0 = true) (htt : tt.all isTagChar = true)
    (hy : isTagChar y = false) :
    htmlTagMatchHere ('<' :: '/' :: (t0 :: (tt ++ y :: ys))) =
      some (t0 :: tt, 2 + (t0 :: tt).length) := by
  simp [htmlTagMatchHere, tagNameAt_spot t0 tt y ys h0 htt hy]

theorem htmlOccMatchHere_nil (tag : List Char) : htmlOccMatchHere [] tag = none := rfl

theorem htmlOccMatchHere_cons_neg (c : Char) (l tag : List Char) (h : ¬ c = '<') :
    htmlOccMatchHere (c :: l) tag = none := by
  simp [htmlOccMatchHere, h]

theorem ciLeads_refl_append (tag x : List Char) : ciLeads tag (tag ++ x) = true := by
  induction tag with
  | nil => rfl
  | cons t ts ih => simp [ciLeads, ih]

theorem htmlOccMatchHere_open (t0 : Char) (tt : List Char) (y : Char) (ys : List Char)
    (ht0 : ¬ t0 = '/') (hy : lookOk (y :: ys) = true) :
    htmlOccMatchHere ('<' :: ((t0 :: tt) ++ y :: ys)) (t0 :: tt) =
      some (1 + (t0 :: tt).length, false) := by
  have hci : ciLeads (t0 :: tt) ((t0 :: tt) ++ y :: ys) = true := ciLeads_refl_append _ _
  have hdrop : ((t0 :: tt) ++ y :: ys).drop (t0 :: tt).length = y :: ys :=
    List.drop_left _ _
  simp only [List.cons_append] at hci hdrop ⊢
  simp [htmlOccMatchHere, ht0, hci, hdrop, hy]

theorem htmlOccMatchHere_close (t0 : Char) (tt : List Char) (y : Char) (ys : List Char)
    (hy : lookOk (y :: ys) = true) :
    htmlOccMatchHere ('<' :: '/' :: ((t0 :: tt) ++ y :: ys)) (t0 :: tt) =
      some (2 + (t0 :: tt).length, true) := by
  have hci : ciLeads (t0 :: tt) ((t0 :: tt) ++ y :: ys) = true := ciLeads_refl_append _ _
  have hdrop : ((t0 :: tt) ++ y :: ys).drop (t0 :: tt).length = y :: ys :=
    List.drop_left _ _
  simp only [List.cons_append] at hci hdrop ⊢
  simp [htmlOccMatchHere, hci, hdrop, hy]

theorem htmlOccsAux_hit (cs tag : List Char) (f i len : Nat) (closing : Bool)
    (h : htmlOccMatchHere (cs.drop i) tag = some (len, closing)) :
    htmlOccsAux cs tag (f + 1) i = (i, closing) :: htmlOccsAux cs tag f (i + len) := by
  simp [htmlOccsAux, h]

theorem htmlOccsAux_skip (cs tag : List Char) (f i : Nat)
    (h : htmlOccMatchHere (cs.drop i) tag = none) (hi : i < cs.length) :
    htmlOccsAux cs tag (f + 1) i = htmlOccsAux cs tag f (i + 1) := by
  simp [htmlOccsAux, h, hi]

theorem htmlOccsAux_end (cs tag : List Char) (f i : Nat) (hi : cs.length ≤ i) :
    htmlOccsAux cs tag f i = [] := by
  cases f with
  | zero => rfl
  | succ f =>
    have hd : cs.drop i = [] := List.drop_eq_nil_of_le hi
    simp [htmlOccsAux, hd, htmlOccMatchHere_nil, Nat.not_lt.mpr hi]

theorem htmlOccsAux_skip_seg (cs tag : List Char) (seg : List Char) :
    ∀ (tail : List Char) (i f : Nat), cs.drop i = seg ++ tail →
      (∀ c ∈ seg, ¬ c = '<') →
      htmlOccsAux cs tag (f + seg.length) i = htmlOccsAux cs tag f (i + seg.length) := by
  induction seg with
  | nil => intro tail i f _ _; simp
  | cons c seg ih =>
    intro tail i f hdrop hfail
    have hm : htmlOccMatchHere (cs.drop i) tag = none := by
      rw [hdrop]
      exact htmlOccMatchHere_cons_neg c _ tag (hfail c (by simp))
    have hi : i < cs.length := by
      by_contra hle
      have hnil : cs.drop i = [] := List.drop_eq_nil_of_le (by omega)
      rw [hnil] at hdrop
      exact absurd hdrop.symm (by simp)
    have hdrop' : cs.drop (i + 1) = seg ++ tail := by
      rw [← List.drop_drop, hdrop]
      simp
    have harith : f + (c :: seg).length = (f + seg.length) + 1 := by simp; omega
    rw [harith, htmlOccsAux_skip cs tag _ i hm hi,
      ih tail (i + 1) f hdrop' (fun x hx => hfail x (by simp [hx]))]
    congr 1
    simp
    omega

theorem map_toLower_self (l : List Char) (h : ∀ c ∈ l, Char.toLower c = c) :
    l.map Char.toLower = l := by
  induction l with
  | nil => rfl
  | cons c t ih => simp [h c (by simp), ih (fun x hx => h x (by simp [hx]))]

theorem htmlLoop_end (d : Dataset) (cs : List Char) (fuel i : Nat)
    (checked : List (List Char)) (b : Buckets)
    (h : htmlTagExecFrom cs i = none) :
    highlightHtmlAux d cs fuel i checked b = b := by
  cases fuel <;> simp [highlightHtmlAux, h]

theorem htmlLoop_step_new (d : Dataset) (cs : List Char) (f i : Nat)
    (checked : List (List Char)) (b : Buckets) (idx next : Nat) (raw : List Char)
    (h : htmlTagExecFrom cs i = some (idx, raw, next))
    (hnew : checked.contains (raw.map Char.toLower) = false) :
    highlightHtmlAux d cs (f + 1) i checked b =
      highlightHtmlAux d cs f next ((raw.map Char.toLower) :: checked)
        (htmlTagStep d cs (raw.map Char.toLower) b) := by
  simp only [highlightHtmlAux, h]
  rw [if_neg (by simpa using hnew)]

theorem htmlLoop_step_dup (d : Dataset) (cs : List Char) (f i : Nat)
    (checked : List (List Char)) (b : Buckets) (idx next : Nat) (raw : List Char)
    (h : htmlTagExecFrom cs i = some (idx, raw, next))
    (hdup : checked.contains (raw.map Char.toLower) = true) :
    highlightHtmlAux d cs (f + 1) i checked b =
      highlightHtmlAux d cs f next checked b := by
  simp only [highlightHtmlAux, h]
  rw [if_pos (by simpa using hdup)]

theorem htmlOccs_pair (cs : List Char) (t0 : Char) (tt mid : List Char)
    (hcs : cs = '<' :: ((t0 :: tt) ++ ('>' :: (mid ++ ('<' :: ('/' :: ((t0 :: tt) ++ ['>'])))))))
    (ht0 : isAsciiLetter t0 = true)
    (hmid : ∀ c ∈ mid, ¬ c = '<') :
    htmlOccs cs (t0 :: tt) =
      [(0, false), (2 + (t0 :: tt).length + mid.length, true)] := by
  have ht0s : ¬ t0 = '/' := fun h => by
    subst h
    exact absurd ht0 (by decide)
  have hlen : cs.length = 2 * tt.length + mid.length + 7 := by
    rw [hcs]
    simp only [List.length_cons, List.length_append, List.length_nil]
    omega
  have hd1 : cs.drop (1 + (t0 :: tt).length) =
      ('>' :: mid) ++ ('<' :: ('/' :: ((t0 :: tt) ++ ['>']))) := by
    have hsplit : cs =
        ('<' :: (t0 :: tt)) ++ (('>' :: mid) ++ ('<' :: ('/' :: ((t0 :: tt) ++ ['>'])))) := by
      rw [hcs]
      simp
    rw [hsplit, List.drop_left']
    simp only [List.length_cons]
    omega
  have hd2 : cs.drop (2 + (t0 :: tt).length + mid.length) =
      '<' :: ('/' :: ((t0 :: tt) ++ ['>'])) := by
    have hsplit : cs =
        ('<' :: ((t0 :: tt) ++ ('>' :: mid))) ++ ('<' :: ('/' :: ((t0 :: tt) ++ ['>']))) := by
      rw [hcs]
      simp
    rw [hsplit, List.drop_left']
    simp only [List.length_cons, List.length_append]
    omega
  have hd3 : cs.drop ((2 + (t0 :: tt).length + mid.length) + (2 + (t0 :: tt).length)) =
      ['>'] := by
    have hsplit : cs =
        ('<' :: ((t0 :: tt) ++ ('>' :: (mid ++ ('<' :: ('/' :: (t0 :: tt))))))) ++ ['>'] := by
      rw [hcs]
      simp
    rw [hsplit, List.drop_left']
    simp only [List.length_cons, List.length_append]
    omega
  have hm0 : htmlOccMatchHere (cs.drop 0) (t0 :: tt) =
      some (1 + (t0 :: tt).length, false) := by
    rw [List.drop_zero, hcs]
    exact htmlOccMatchHere_open t0 tt '>' _ ht0s (by simp [lookOk])
  have hm2 : htmlOccMatchHere (cs.drop (2 + (t0 :: tt).length + mid.length)) (t0 :: tt) =
      some (2 + (t0 :: tt).length, true) := by
    rw [hd2]
    exact htmlOccMatchHere_close t0 tt '>' [] (by simp [lookOk])
  unfold htmlOccs
  rw [htmlOccsAux_hit cs (t0 :: tt) cs.length 0 _ _ hm0]
  rw [show cs.length = (2 * tt.length + 6) + ('>' :: mid).length by
    rw [hlen]; simp only [List.length_cons]; omega]
  rw [show (0 : Nat) + (1 + (t0 :: tt).length) = 1 + (t0 :: tt).length by omega]
  rw [htmlOccsAux_skip_seg cs (t0 :: tt) ('>' :: mid) _ _ _ hd1
    (by
      intro c hc
      rcases List.mem_cons.mp hc with h | h
      · subst h; decide
      · exact hmid c h)]
  rw [show (1 + (t0 :: tt).length) + ('>' :: mid).length =
      2 + (t0 :: tt).length + mid.length by simp only [List.length_cons]; omega]
  rw [show 2 * tt.length + 6 = (2 * tt.length + 5) + 1 by omega]
  rw [htmlOccsAux_hit cs (t0 :: tt) _ _ _ _ hm2]
  rw [show 2 * tt.length + 5 = (2 * tt.length + 4) + ['>'].length by simp]
  rw [htmlOccsAux_skip_seg cs (t0 :: tt) ['>'] [] _ _ (by rw [hd3]; simp)
    (by intro c hc; simp at hc; subst hc; decide)]
  rw [htmlOccsAux_end cs (t0 :: tt) _ _ (by
    rw [hlen]
    simp only [List.length_cons]
    omega)]

theorem html_scan_pair (d : Dataset) (cs : List Char) (t0 : Char) (tt mid : List Char)
    (s : Status)
    (hcs : cs = '<' :: ((t0 :: tt) ++ ('>' :: (mid ++ ('<' :: ('/' :: ((t0 :: tt) ++ ['>'])))))))
    (ht0 : isAsciiLetter t0 = true)
    (htt : tt.all isTagChar = true)
    (hlow : ∀ c ∈ (t0 :: tt), Char.toLower c = c)
    (hmid : ∀ c ∈ mid, ¬ c = '<')
    (hkey : d (getHtmlBcdKey (t0 :: tt)) = LookupResult.found s) :
    highlightHtml d cs ⟨[], [], []⟩ =
      pushByStatus ((t0 :: tt).length + mid.length + 4) (t0 :: tt).length (some s)
        (pushByStatus 1 (t0 :: tt).length (some s) ⟨[], [], []⟩) := by
  have hlen : cs.length = 2 * tt.length + mid.length + 7 := by
    rw [hcs]
    simp only [List.length_cons, List.length_append, List.length_nil]
    omega
  have hd1 : cs.drop (1 + (t0 :: tt).length) =
      ('>' :: mid) ++ ('<' :: ('/' :: ((t0 :: tt) ++ ['>']))) := by
    have hsplit : cs =
        ('<' :: (t0 :: tt)) ++ (('>' :: mid) ++ ('<' :: ('/' :: ((t0 :: tt) ++ ['>'])))) := by
      rw [hcs]
      simp
    rw [hsplit, List.drop_left']
    simp only [List.length_cons]
    omega
  have hd2 : cs.drop (2 + (t0 :: tt).length + mid.length) =
      '<' :: ('/' :: ((t0 :: tt) ++ ['>'])) := by
    have hsplit : cs =
        ('<' :: ((t0 :: tt) ++ ('>' :: mid))) ++ ('<' :: ('/' :: ((t0 :: tt) ++ ['>']))) := by
      rw [hcs]
      simp
    rw [hsplit, List.drop_left']
    simp only [List.length_cons, List.length_append]
    omega
  have hd3 : cs.drop ((2 + (t0 :: tt).length + mid.length) + (2 + (t0 :: tt).length)) =
      ['>'] := by
    have hsplit : cs =
        ('<' :: ((t0 :: tt) ++ ('>' :: (mid ++ ('<' :: ('/' :: (t0 :: tt))))))) ++ ['>'] := by
      rw [hcs]
      simp
    rw [hsplit, List.drop_left']
    simp only [List.length_cons, List.length_append]
    omega
  have hstep : htmlTagStep d cs (t0 :: tt) ⟨[], [], []⟩ =
      pushByStatus ((t0 :: tt).length + mid.length + 4) (t0 :: tt).length (some s)
        (pushByStatus 1 (t0 :: tt).length (some s) ⟨[], [], []⟩) := by
    unfold htmlTagStep
    rw [hkey, htmlOccs_pair cs t0 tt mid hcs ht0 hmid]
    simp only [List.foldl_cons, List.foldl_nil, if_true, if_false, Nat.zero_add]
    rw [show (2 + (t0 :: tt).length + mid.length) + 2 =
      (t0 :: tt).length + mid.length + 4 by omega]
    simp
  have hm0 : htmlTagMatchHere (cs.drop 0) = some (t0 :: tt, 1 + (t0 :: tt).length) := by
    rw [List.drop_zero, hcs]
    simp only [List.cons_append]
    exact htmlTagMatchHere_open t0 tt '>' _ ht0 htt (by decide)
  have hexec0 : htmlTagExecFrom cs 0 = some (0, t0 :: tt, 0 + (1 + (t0 :: tt).length)) :=
    exec_hit htmlTagMatchHere cs 0 (t0 :: tt) (1 + (t0 :: tt).length) hm0
  have hm2 : htmlTagMatchHere (cs.drop (2 + (t0 :: tt).length + mid.length)) =
      some (t0 :: tt, 2 + (t0 :: tt).length) := by
    rw [hd2]
    simp only [List.cons_append]
    exact htmlTagMatchHere_close t0 tt '>' [] ht0 htt (by decide)
  have hexec1 : htmlTagExecFrom cs (1 + (t0 :: tt).length) =
      some (2 + (t0 :: tt).length + mid.length, t0 :: tt,
        (2 + (t0 :: tt).length + mid.length) + (2 + (t0 :: tt).length)) := by
    have hskip := exec_skip_seg htmlTagMatchHere cs ('>' :: mid) _ (1 + (t0 :: tt).length)
      hd1
      (by
        intro c hc l
        apply htmlTagMatchHere_cons_neg
        rcases List.mem_cons.mp hc with h | h
        · subst h; decide
        · exact hmid c h)
    have hhit := exec_hit htmlTagMatchHere cs ((1 + (t0 :: tt).length) + ('>' :: mid).length)
      (t0 :: tt) (2 + (t0 :: tt).length)
      (by
        rw [show (1 + (t0 :: tt).length) + ('>' :: mid).length =
          2 + (t0 :: tt).length + mid.length by simp only [List.length_cons]; omega]
        exact hm2)
    unfold htmlTagExecFrom
    rw [hskip, hhit]
    rw [show (1 + (t0 :: tt).length) + ('>' :: mid).length =
      2 + (t0 :: tt).length + mid.length by simp only [List.length_cons]; omega]
  have hexec2 : htmlTagExecFrom cs ((2 + (t0 :: tt).length + mid.length) +
      (2 + (t0 :: tt).length)) = none := by
    apply exec_none_of_tail _ _ _ htmlTagMatchHere_nil
    intro c hc l
    apply htmlTagMatchHere_cons_neg
    rw [hd3] at hc
    simp at hc
    subst hc
    decide
  have hmap : (t0 :: tt).map Char.toLower = t0 :: tt := map_toLower_self _ hlow
  unfold highlightHtml
  rw [htmlLoop_step_new d cs cs.length 0 [] ⟨[], [], []⟩ 0 _ (t0 :: tt) hexec0 (by rfl)]
  simp only [hmap]
  rw [show (0 : Nat) + (1 + (t0 :: tt).length) = 1 + (t0 :: tt).length by omega]
  rw [show cs.length = (2 * tt.length + mid.length + 6) + 1 by rw [hlen]]
  rw [htmlLoop_step_dup d cs _ _ _ _ _ _ (t0 :: tt) hexec1 (by simp [hmap])]
  rw [htmlLoop_end d cs _ _ _ _ hexec2]
  exact hstep

/- ------------------------------------------------------------------
Claims C1 through C5, C7, C8.
------------------------------------------------------------------ -/

/-- Claim C1: over the enumerated domain, the classifier maps each
status to exactly the stated tier, appending the span to the matching
bucket: a null status and `baseline == false` append to `limited`,
`baseline == "low"` to `newly`, `baseline == "high"` to `widely`. -/
theorem c1_classifier_enumerated_tiers (idx len : Nat) (b : Buckets) :
    pushByStatus idx len none b = { b with limited := b.limited ++ [⟨idx, len⟩] } ∧
    pushByStatus idx len (some ⟨Baseline.bfalse⟩) b =
      { b with limited := b.limited ++ [⟨idx, len⟩] } ∧
    pushByStatus idx len (some ⟨Baseline.low⟩) b =
      { b with newly := b.newly ++ [⟨idx, len⟩] } ∧
    pushByStatus idx len (some ⟨Baseline.high⟩) b =
      { b with widely := b.widely ++ [⟨idx, len⟩] } :=
  ⟨rfl, rfl, rfl, rfl⟩

/-- Claim C2 (counterexample): a non-null status whose baseline is some
other value (here: absent/undefined) is NOT appended to the limited
bucket as the claim states — `pushByStatus` leaves all buckets
unchanged. -/
theorem c2_unknown_baseline_counterexample :
    pushByStatus 0 7 (some ⟨Baseline.undef⟩) ⟨[], [], []⟩ = ⟨[], [], []⟩ ∧
    (pushByStatus 0 7 (some ⟨Baseline.undef⟩) ⟨[], [], []⟩).limited ≠ [⟨0, 7⟩] :=
  ⟨rfl, by decide⟩

/-- Claim C2 (amended): a non-null status whose baseline is any value
other than `false`, `"low"` or `"high"` matches no branch of the
classifier chain, so the span is appended to no bucket (it is dropped,
not classified as limited). -/
theorem c2_unknown_baseline_dropped (idx len : Nat) (b : Buckets) (bl : Baseline)
    (h1 : bl ≠ Baseline.bfalse) (h2 : bl ≠ Baseline.low) (h3 : bl ≠ Baseline.high) :
    pushByStatus idx len (some ⟨bl⟩) b = b := by
  cases bl with
  | bfalse => exact absurd rfl h1
  | low => exact absurd rfl h2
  | high => exact absurd rfl h3
  | undef => rfl
  | otherStr s => rfl

theorem c2_unknown_baseline_dropped_witness :
    pushByStatus 3 4 (some ⟨Baseline.otherStr "weird"⟩) ⟨[], [], []⟩ = ⟨[], [], []⟩ :=
  c2_unknown_baseline_dropped 3 4 ⟨[], [], []⟩ (Baseline.otherStr "weird")
    (by decide) (by decide) (by decide)

/-- Claim C3 (counterexample): a failed lookup does NOT always produce a
limited span.  With a dataset whose every lookup returns null, scanning
`<div></div>` detects the `div` tag (the detection regex matches) and
performs the lookup, yet the scan emits no span at all: the `!status`
guard hits `continue` and the feature is silently dropped. -/
theorem c3_failed_lookup_counterexample :
    dsAllNull (getHtmlBcdKey "div".toList) = LookupResult.nullRes ∧
    htmlTagExecFrom "<div></div>".toList 0 = some (0, "div".toList, 4) ∧
    highlightHtml dsAllNull "<div></div>".toList ⟨[], [], []⟩ = ⟨[], [], []⟩ :=
  ⟨rfl, by decide, by decide⟩

/-- Claim C3 (amended): only in the CSS scan does a null lookup yield a
limited span; a lookup that throws (CSS path) and an HTML lookup that
returns null or throws yield no span for the detected feature — those
spans are dropped. -/
theorem c3_failed_lookup_paths (d : Dataset) (idx plen : Nat) (b : Buckets)
    (key : List Char) (cs tag : List Char) :
    (d key = LookupResult.nullRes →
      cssKeyStep d idx plen b key = { b with limited := b.limited ++ [⟨idx, plen⟩] }) ∧
    (d key = LookupResult.err → cssKeyStep d idx plen b key = b) ∧
    (d (getHtmlBcdKey tag) = LookupResult.nullRes → htmlTagStep d cs tag b = b) ∧
    (d (getHtmlBcdKey tag) = LookupResult.err → htmlTagStep d cs tag b = b) := by
  refine ⟨?_, ?_, ?_, ?_⟩ <;> intro h <;>
    simp [cssKeyStep, htmlTagStep, h, pushByStatus]

theorem c3_failed_lookup_paths_witness :
    cssKeyStep dsAllNull 0 5 ⟨[], [], []⟩ "css.properties.color".toList =
      ⟨[⟨0, 5⟩], [], []⟩ ∧
    cssKeyStep dsAllErr 0 5 ⟨[], [], []⟩ "css.properties.color".toList = ⟨[], [], []⟩ ∧
    htmlTagStep dsAllNull "<div></div>".toList "div".toList ⟨[], [], []⟩ = ⟨[], [], []⟩ ∧
    htmlTagStep dsAllErr "<div></div>".toList "div".toList ⟨[], [], []⟩ = ⟨[], [], []⟩ := by
  refine ⟨?_, ?_, ?_, ?_⟩
  · exact (c3_failed_lookup_paths dsAllNull 0 5 ⟨[], [], []⟩
      "css.properties.color".toList [] []).1 rfl
  · exact (c3_failed_lookup_paths dsAllErr 0 5 ⟨[], [], []⟩
      "css.properties.color".toList [] []).2.1 rfl
  · exact (c3_failed_lookup_paths dsAllNull 0 5 ⟨[], [], []⟩ []
      "<div></div>".toList "div".toList).2.2.1 rfl
  · exact (c3_failed_lookup_paths dsAllErr 0 5 ⟨[], [], []⟩ []
      "<div></div>".toList "div".toList).2.2.2 rfl

/-- Claim C4: a feature absent from the dataset (whose lookup therefore
throws, which is what the wrapped compatibility library does on unknown
keys) contributes zero spans, and the scan — which swallows every such
exception — completes and never propagates one: with an all-throwing
dataset every scan of every text yields empty buckets, and each
individual throwing lookup leaves the buckets unchanged. -/
theorem c4_unknown_feature_zero_spans (d : Dataset)
    (hd : ∀ k, d k = LookupResult.err) :
    (∀ text lang, scanBuckets d text lang = ⟨[], [], []⟩) ∧
    (∀ idx plen b k, cssKeyStep d idx plen b k = b) ∧
    (∀ cs tag b, htmlTagStep d cs tag b = b) :=
  ⟨fun text lang => scanBuckets_allErr d hd text lang,
   fun idx plen b k => cssKeyStep_err d idx plen b k (hd k),
   fun cs tag b => htmlTagStep_err d cs tag b (hd _)⟩

theorem c4_unknown_feature_zero_spans_witness :
    scanBuckets dsAllErr "display: grid;".toList "css".toList = ⟨[], [], []⟩ ∧
    scanBuckets dsAllErr "<dialog></dialog>".toList "html".toList = ⟨[], [], []⟩ :=
  ⟨(c4_unknown_feature_zero_spans dsAllErr (fun _ => rfl)).1 _ _,
   (c4_unknown_feature_zero_spans dsAllErr (fun _ => rfl)).1 _ _⟩

/-- Claim C5: for a CSS-family text containing a declaration
`prop: value;` whose property key resolves (and whose compound key
throws, so only the property key contributes), the emitted span starts
at the start of the property name in the text and its length is the
length of the property name, covering exactly the property substring
and not the value. -/
theorem c5_css_span_covers_property (d : Dataset) (pre prop ws value rest : List Char)
    (s : Status)
    (hpre : pre.all (fun c => !isAlphaDash c) = true)
    (hp : prop ≠ []) (hpc : prop.all isAlphaDash = true)
    (hws : ws.all isJsSpace = true)
    (hv : value ≠ []) (hvc : value.all (fun c => !isJsSpace c && !(c == ';')) = true)
    (hrest : rest.all (fun c => !isAlphaDash c) = true)
    (hbase : d ("css.properties.".toList ++ prop) = LookupResult.found s)
    (hcomp : d (("css.properties.".toList ++ prop) ++ '.' :: value) = LookupResult.err) :
    highlightCss d (pre ++ (prop ++ ':' :: (ws ++ (value ++ ';' :: rest)))) ⟨[], [], []⟩ =
      pushByStatus pre.length prop.length (some s) ⟨[], [], []⟩ := by
  rw [css_scan_decl d pre prop ws value rest _ hpre hp hpc hws hv hvc hrest]
  simp only [cssKeys]
  rw [if_neg hv]
  simp only [List.foldl_cons, List.foldl_nil]
  rw [cssKeyStep_found d _ _ _ _ s hbase, cssKeyStep_err d _ _ _ _ hcomp]

theorem c5_css_span_covers_property_witness :
    highlightCss dsDisplayHigh "display: grid;".toList ⟨[], [], []⟩ =
      ⟨[], [], [⟨0, 7⟩]⟩ := by
  have h := c5_css_span_covers_property dsDisplayHigh [] "display".toList [' ']
    "grid".toList [] ⟨Baseline.high⟩ (by decide) (by decide) (by decide) (by decide)
    (by decide) (by decide) (by decide) (by decide) (by decide)
  exact h

/-- Claim C7: the scanner always looks up the property-only key and
looks up the compound `property.value` key exactly when the trimmed
value is non-empty; when both keys resolve, two spans with the same
offset and length (those of the property name) are emitted.  The first
part exhibits both lookups feeding two identical-extent spans; the
second shows that with an all-whitespace value (trimmed to empty) the
scan's result is a single application of the per-key step to the
property-only key, for every dataset — so no compound key is consulted;
the last two parts state the key-list construction. -/
theorem c7_compound_key_iff_value :
    (∀ (d : Dataset) (pre prop ws value rest : List Char) (s1 s2 : Status),
      pre.all (fun c => !isAlphaDash c) = true →
      prop ≠ [] → prop.all isAlphaDash = true →
      ws.all isJsSpace = true →
      value ≠ [] → value.all (fun c => !isJsSpace c && !(c == ';')) = true →
      rest.all (fun c => !isAlphaDash c) = true →
      d ("css.properties.".toList ++ prop) = LookupResult.found s1 →
      d (("css.properties.".toList ++ prop) ++ '.' :: value) = LookupResult.found s2 →
      highlightCss d (pre ++ (prop ++ ':' :: (ws ++ (value ++ ';' :: rest)))) ⟨[], [], []⟩ =
        pushByStatus pre.length prop.length (some s2)
          (pushByStatus pre.length prop.length (some s1) ⟨[], [], []⟩)) ∧
    (∀ (d : Dataset) (pre prop rest : List Char),
      pre.all (fun c => !isAlphaDash c) = true →
      prop ≠ [] → prop.all isAlphaDash = true →
      rest.all (fun c => !isAlphaDash c) = true →
      highlightCss d (pre ++ (prop ++ ':' :: ' ' :: ';' :: rest)) ⟨[], [], []⟩ =
        cssKeyStep d pre.length prop.length ⟨[], [], []⟩
          ("css.properties.".toList ++ prop)) ∧
    (∀ property value, value ≠ [] → cssKeys property value =
      [getCssBcdKey property, getCssBcdKey property ++ '.' :: value]) ∧
    (∀ property, cssKeys property [] = [getCssBcdKey property]) := by
  refine ⟨?_, ?_, ?_, ?_⟩
  · intro d pre prop ws value rest s1 s2 hpre hp hpc hws hv hvc hrest hbase hcomp
    rw [css_scan_decl d pre prop ws value rest _ hpre hp hpc hws hv hvc hrest]
    simp only [cssKeys]
    rw [if_neg hv]
    simp only [List.foldl_cons, List.foldl_nil]
    rw [cssKeyStep_found d _ _ _ _ s1 hbase, cssKeyStep_found d _ _ _ _ s2 hcomp]
  · intro d pre prop rest hpre hp hpc hrest
    exact css_scan_wsval d pre prop rest _ hpre hp hpc hrest
  · intro property value hv
    simp [cssKeys, getCssBcdKey, hv]
  · intro property
    simp [cssKeys, getCssBcdKey]

theorem c7_compound_key_iff_value_witness :
    highlightCss dsAllHigh "a: b;".toList ⟨[], [], []⟩ =
      ⟨[], [], [⟨0, 1⟩, ⟨0, 1⟩]⟩ ∧
    highlightCss dsAllHigh "a: ;".toList ⟨[], [], []⟩ = ⟨[], [], [⟨0, 1⟩]⟩ := by
  constructor
  · have h := c7_compound_key_iff_value.1 dsAllHigh [] ['a'] [' '] ['b'] []
      ⟨Baseline.high⟩ ⟨Baseline.high⟩ (by decide) (by decide) (by decide) (by decide)
      (by decide) (by decide) (by decide) (by decide) (by decide)
    exact h
  · have h := c7_compound_key_iff_value.2.1 dsAllHigh [] ['a'] []
      (by decide) (by decide) (by decide) (by decide)
    exact h

/-- Claim C8: a lookup that throws on one key does not abort the scan:
the scan continues past the failing declaration, later features are
still looked up and contribute their spans (main part: a two-declaration
text whose first declaration's keys both throw still yields the second
declaration's span), and each individual throwing lookup is swallowed,
leaving the buckets unchanged (remaining parts); the scan itself is a
total function, so no exception propagates. -/
theorem c8_lookup_error_isolation :
    (∀ (d : Dataset) (mid1 p1 ws1 v1 mid2 p2 ws2 v2 rest : List Char) (s : Status),
      mid1.all (fun c => !isAlphaDash c) = true →
      p1 ≠ [] → p1.all isAlphaDash = true →
      ws1.all isJsSpace = true →
      v1 ≠ [] → v1.all (fun c => !isJsSpace c && !(c == ';')) = true →
      mid2.all (fun c => !isAlphaDash c) = true →
      p2 ≠ [] → p2.all isAlphaDash = true →
      ws2.all isJsSpace = true →
      v2 ≠ [] → v2.all (fun c => !isJsSpace c && !(c == ';')) = true →
      rest.all (fun c => !isAlphaDash c) = true →
      d ("css.properties.".toList ++ p1) = LookupResult.err →
      d (("css.properties.".toList ++ p1) ++ '.' :: v1) = LookupResult.err →
      d ("css.properties.".toList ++ p2) = LookupResult.found s →
      d (("css.properties.".toList ++ p2) ++ '.' :: v2) = LookupResult.err →
      highlightCss d
        (mid1 ++ (p1 ++ ':' :: (ws1 ++ (v1 ++ ';' ::
          (mid2 ++ (p2 ++ ':' :: (ws2 ++ (v2 ++ ';' :: rest)))))))) ⟨[], [], []⟩ =
        pushByStatus (mid1.length + (p1.length + ws1.length + v1.length + 2) + mid2.length)
          p2.length (some s) ⟨[], [], []⟩) ∧
    (∀ (d : Dataset) (idx plen : Nat) (b : Buckets) (k : List Char),
      d k = LookupResult.err → cssKeyStep d idx plen b k = b) ∧
    (∀ (d : Dataset) (cs tag : List Char) (b : Buckets),
      d (getHtmlBcdKey tag) = LookupResult.err → htmlTagStep d cs tag b = b) := by
  refine ⟨?_, cssKeyStep_err, htmlTagStep_err⟩
  intro d mid1 p1 ws1 v1 mid2 p2 ws2 v2 rest s hmid1 hp1 hpc1 hws1 hv1 hvc1
    hmid2 hp2 hpc2 hws2 hv2 hvc2 hrest herr1 herr1c hfound hcomp2
  unfold highlightCss
  set cs := mid1 ++ (p1 ++ ':' :: (ws1 ++ (v1 ++ ';' ::
    (mid2 ++ (p2 ++ ':' :: (ws2 ++ (v2 ++ ';' :: rest))))))) with hcs
  rw [css_step_decl d cs cs.length 0 ⟨[], [], []⟩ mid1 p1 ws1 v1
    (mid2 ++ (p2 ++ ':' :: (ws2 ++ (v2 ++ ';' :: rest))))
    (by rw [List.drop_zero, hcs]) hmid1 hp1 hpc1 hws1 hv1 hvc1]
  have hb1 : (cssKeys p1 v1).foldl (cssKeyStep d (0 + mid1.length) p1.length)
      ⟨[], [], []⟩ = (⟨[], [], []⟩ : Buckets) := by
    simp only [cssKeys]
    rw [if_neg hv1]
    simp only [List.foldl_cons, List.foldl_nil]
    rw [cssKeyStep_err d _ _ _ _ herr1, cssKeyStep_err d _ _ _ _ herr1c]
  rw [hb1]
  have hlen : 0 < cs.length := by
    rw [hcs]
    simp
  obtain ⟨f, hf⟩ : ∃ f, cs.length = f + 1 := ⟨cs.length - 1, by omega⟩
  rw [hf]
  have hdropmid : cs.drop (0 + mid1.length + (p1.length + ws1.length + v1.length + 2)) =
      mid2 ++ (p2 ++ ':' :: (ws2 ++ (v2 ++ ';' :: rest))) := by
    have hsplit : cs = (mid1 ++ p1 ++ [':'] ++ ws1 ++ v1 ++ [';']) ++
        (mid2 ++ (p2 ++ ':' :: (ws2 ++ (v2 ++ ';' :: rest)))) := by
      rw [hcs]; simp
    rw [hsplit, List.drop_left']
    simp only [List.length_append, List.length_cons, List.length_nil]
    omega
  rw [css_step_decl d cs f _ ⟨[], [], []⟩ mid2 p2 ws2 v2 rest hdropmid
    hmid2 hp2 hpc2 hws2 hv2 hvc2]
  have hb2 : (cssKeys p2 v2).foldl
      (cssKeyStep d (0 + mid1.length + (p1.length + ws1.length + v1.length + 2) +
        mid2.length) p2.length) ⟨[], [], []⟩ =
      pushByStatus (mid1.length + (p1.length + ws1.length + v1.length + 2) + mid2.length)
        p2.length (some s) ⟨[], [], []⟩ := by
    simp only [cssKeys]
    rw [if_neg hv2]
    simp only [List.foldl_cons, List.foldl_nil]
    rw [cssKeyStep_found d _ _ _ _ s hfound, cssKeyStep_err d _ _ _ _ hcomp2]
    simp [Nat.add_assoc]
  rw [hb2]
  apply css_end_tail
  have hsplit2 : cs = (mid1 ++ p1 ++ [':'] ++ ws1 ++ v1 ++ [';'] ++
      mid2 ++ p2 ++ [':'] ++ ws2 ++ v2 ++ [';']) ++ rest := by
    rw [hcs]; simp
  have hdropr : cs.drop (0 + mid1.length + (p1.length + ws1.length + v1.length + 2) +
      mid2.length + (p2.length + ws2.length + v2.length + 2)) = rest := by
    rw [hsplit2, List.drop_left']
    simp only [List.length_append, List.length_cons, List.length_nil]
    omega
  rw [hdropr]
  exact hrest

theorem c8_lookup_error_isolation_witness :
    highlightCss dsOnlyC "a: b; c: d;".toList ⟨[], [], []⟩ =
      ⟨[], [⟨6, 1⟩], []⟩ := by
  have h := c8_lookup_error_isolation.1 dsOnlyC [] ['a'] [' '] ['b'] [' '] ['c'] [' ']
    ['d'] [] ⟨Baseline.low⟩ (by decide) (by decide) (by decide) (by decide) (by decide)
    (by decide) (by decide) (by decide) (by decide) (by decide) (by decide) (by decide)
    (by decide) (by decide) (by decide) (by decide) (by decide)
  exact h

/-- Claim C6: for an HTML-family text consisting of exactly one
`<tag>`/`</tag>` pair of a recognized (dataset-found) tag name, exactly
two spans are emitted, one per occurrence, both coming from the same
status and hence carrying the same tier; the first starts immediately
after the `<` delimiter (offset 1) and the second immediately after the
`</` delimiter, and both have length equal to the tag-name length, so
only the tag-name substring is covered.  The three trailing conjuncts
spell the bucket contents out for each classifiable baseline value. -/
theorem c6_html_pair_two_spans (d : Dataset) (cs : List Char) (t0 : Char)
    (tt mid : List Char) (s : Status)
    (hcs : cs = '<' :: ((t0 :: tt) ++ ('>' :: (mid ++ ('<' :: ('/' :: ((t0 :: tt) ++ ['>'])))))))
    (ht0 : isAsciiLetter t0 = true)
    (htt : tt.all isTagChar = true)
    (hlow : ∀ c ∈ (t0 :: tt), Char.toLower c = c)
    (hmid : ∀ c ∈ mid, ¬ c = '<')
    (hkey : d (getHtmlBcdKey (t0 :: tt)) = LookupResult.found s) :
    highlightHtml d cs ⟨[], [], []⟩ =
      pushByStatus ((t0 :: tt).length + mid.length + 4) (t0 :: tt).length (some s)
        (pushByStatus 1 (t0 :: tt).length (some s) ⟨[], [], []⟩) ∧
    (s.baseline = Baseline.bfalse → highlightHtml d cs ⟨[], [], []⟩ =
      ⟨[⟨1, (t0 :: tt).length⟩, ⟨(t0 :: tt).length + mid.length + 4, (t0 :: tt).length⟩],
        [], []⟩) ∧
    (s.baseline = Baseline.low → highlightHtml d cs ⟨[], [], []⟩ =
      ⟨[], [⟨1, (t0 :: tt).length⟩, ⟨(t0 :: tt).length + mid.length + 4, (t0 :: tt).length⟩],
        []⟩) ∧
    (s.baseline = Baseline.high → highlightHtml d cs ⟨[], [], []⟩ =
      ⟨[], [],
        [⟨1, (t0 :: tt).length⟩, ⟨(t0 :: tt).length + mid.length + 4, (t0 :: tt).length⟩]⟩) := by
  have hmain := html_scan_pair d cs t0 tt mid s hcs ht0 htt hlow hmid hkey
  refine ⟨hmain, ?_, ?_, ?_⟩ <;> intro hb <;> rw [hmain] <;>
    obtain ⟨bl⟩ := s <;> cases hb <;> rfl

theorem c6_html_pair_two_spans_witness :
    highlightHtml dsDialogLow "<dialog></dialog>".toList ⟨[], [], []⟩ =
      ⟨[], [⟨1, 6⟩, ⟨10, 6⟩], []⟩ := by
  have h := c6_html_pair_two_spans dsDialogLow "<dialog></dialog>".toList 'd'
    "ialog".toList [] ⟨Baseline.low⟩ (by decide) (by decide) (by decide)
    (by decide) (by decide) (by decide)
  exact h.2.2.1 rfl

/-- Claim C9: the scan is deterministic and reads no mutable editor
state other than the document text and language id: re-running
`highlightFeatures` on an editor whose text is unchanged replaces the
decorations with identical contents (idempotence), two editors agreeing
on text and language id receive identical decorations regardless of
their current decoration state, and the null-editor guard is a no-op. -/
theorem c9_scan_deterministic :
    (∀ (d : Dataset) (e : Editor),
      highlightFeaturesRun d (highlightFeaturesRun d e) = highlightFeaturesRun d e) ∧
    (∀ (d : Dataset) (e1 e2 : Editor), e1.text = e2.text →
      e1.languageId = e2.languageId →
      (highlightFeaturesRun d e1).decorations = (highlightFeaturesRun d e2).decorations) ∧
    (∀ (d : Dataset) (oe : Option Editor),
      highlightFeatures d (highlightFeatures d oe) = highlightFeatures d oe) := by
  refine ⟨?_, ?_, ?_⟩
  · intro d e
    rfl
  · intro d e1 e2 ht hl
    simp [highlightFeaturesRun, ht, hl]
  · intro d oe
    cases oe with
    | none => rfl
    | some e => rfl

theorem c9_scan_deterministic_witness :
    (highlightFeaturesRun dsDisplayHigh
      ⟨"display: grid;".toList, "css".toList, ⟨[], [], []⟩⟩).decorations =
    (highlightFeaturesRun dsDisplayHigh
      ⟨"display: grid;".toList, "css".toList, ⟨[⟨9, 9⟩], [], []⟩⟩).decorations :=
  c9_scan_deterministic.2.1 dsDisplayHigh _ _ rfl rfl

/-- Claim C10: in the HTML scan a tag occurrence yields a span only when
the tag name is immediately followed by whitespace, `>`, or `/`
(the per-tag regex lookahead).  For the text `<div`, the detection pass
finds the tag and the dataset lookup succeeds, yet the occurrence regex
matches nothing and zero spans are emitted, while the same tag followed
by `>` does yield its span. -/
theorem c10_trailing_tag_no_span :
    htmlTagExecFrom "<div".toList 0 = some (0, "div".toList, 4) ∧
    dsDivHigh (getHtmlBcdKey "div".toList) = LookupResult.found ⟨Baseline.high⟩ ∧
    htmlOccMatchHere "<div".toList "div".toList = none ∧
    htmlOccMatchHere "<div>".toList "div".toList = some (4, false) ∧
    htmlOccs "<div".toList "div".toList = [] ∧
    highlightHtml dsDivHigh "<div".toList ⟨[], [], []⟩ = ⟨[], [], []⟩ ∧
    highlightHtml dsDivHigh "<div>".toList ⟨[], [], []⟩ = ⟨[], [], [⟨1, 3⟩]⟩ :=
  ⟨by decide, rfl, by decide, by decide, by decide, by decide, by decide⟩

end WebBaseline
